import Mathlib

/-!
Verification of the Mycelix-Music core subsystems against their
natural-language specification.

Shallow embedding conventions:
 - Rust `u32`/`u64` counters are `Nat`; `f64` arithmetic is modelled by exact
   rationals (`ℚ`), with Rust `as u64`/`as u32` truncation of a non-negative
   value modelled by `Rat.floor`/`Nat` division.
 - Holochain action hashes and EVM 32-byte words are byte lists (`List Nat`).
 - DHT link traversals are modelled by passing the list of linked entries
   explicitly; the SQL table of the indexer is a list of rows.
 - The external keccak-256 primitive (`hash_keccak256`) is a parameter
   `K : List Nat → List Nat` of every definition that uses it.
-/

namespace Mycelix

/-! ## Plays zome: pricing (`calculate_play_amount`) -/

/-- Strategy multiplier table of `calculate_play_amount`
(src/dnas/mycelix-music/zomes/plays/coordinator/src/lib.rs, lines 86-92). -/
def strategy_multiplier (strategy_id : String) : ℚ :=
  if strategy_id = "premium" then 2
  else if strategy_id = "patronage" then 3/2
  else if strategy_id = "gift" then 0
  else if strategy_id = "pay_per_stream" then 1
  else 1

/-- Completion fraction computed by `calculate_play_amount`
(lines 74-78): `min(duration_listened / song_duration, 1.0)`, and `0`
when `song_duration = 0`. -/
def play_completion (duration_listened song_duration : Nat) : ℚ :=
  if song_duration > 0 then
    min ((duration_listened : ℚ) / (song_duration : ℚ)) 1
  else 0

/-- Base per-full-play rate of `calculate_play_amount` (line 71). -/
def base_rate : ℚ := 400000000000000

/-- Embedding of `calculate_play_amount`
(src/dnas/mycelix-music/zomes/plays/coordinator/src/lib.rs, lines 69-95).
Floating point is modelled by exact rationals; the final `as u64`
truncation of a non-negative value is `Rat.floor` followed by `Int.toNat`. -/
def calculate_play_amount (strategy_id : String)
    (duration_listened song_duration : Nat) : Nat :=
  let completion := play_completion duration_listened song_duration
  if duration_listened < 30 ∧ completion < 1/2 then 0
  else (⌊base_rate * completion * strategy_multiplier strategy_id⌋).toNat

/-! ## Trust zome: CDN reputation (`update_cdn_reputation`) -/

/-- Embedding of the `CdnNodeReputation` entry
(src/dnas/mycelix-music/zomes/trust/integrity/src/lib.rs, lines 85-112).
`pogq_score : f64` is modelled by `ℚ`. -/
structure CdnNodeReputation where
  node : Nat
  eth_address : String
  ipfs_peer_id : String
  region : String
  bytes_served : Nat
  successful_requests : Nat
  failed_requests : Nat
  avg_latency_ms : Nat
  uptime_bps : Nat
  pogq_score : ℚ
  stake_amount : Nat
  slash_count : Nat
  deriving Repr, DecidableEq

/-- Fresh reputation created by `register_cdn_node`
(src/dnas/mycelix-music/zomes/trust/coordinator/src/lib.rs, lines 167-181). -/
def register_cdn_node (eth_address ipfs_peer_id region : String)
    (stake_amount : Nat) : CdnNodeReputation :=
  { node := 0
    eth_address := eth_address
    ipfs_peer_id := ipfs_peer_id
    region := region
    bytes_served := 0
    successful_requests := 0
    failed_requests := 0
    avg_latency_ms := 0
    uptime_bps := 1000
    pogq_score := 1
    stake_amount := stake_amount
    slash_count := 0 }

/-- Latency factor of the PoGQ score
(src/dnas/mycelix-music/zomes/trust/coordinator/src/lib.rs, lines 342-348). -/
def latency_factor (avg_latency_ms : Nat) : ℚ :=
  if avg_latency_ms < 100 then 1
  else if avg_latency_ms < 500 then 4/5
  else 1/2

/-- Composite PoGQ score computed at the end of `update_cdn_reputation`
(lines 341-349): `uptime_factor * latency_factor` with
`uptime_factor = uptime_bps / 1000.0`. -/
def pogq_score_of (uptime_bps avg_latency_ms : Nat) : ℚ :=
  ((uptime_bps : ℚ) / 1000) * latency_factor avg_latency_ms

/-- Embedding of the mutation performed by `update_cdn_reputation`
(src/dnas/mycelix-music/zomes/trust/coordinator/src/lib.rs, lines 324-351)
on the reputation entry it read: counter updates, rolling latency average
(integer division, as in the `u64` source arithmetic), uptime recomputation
`(successful / total * 1000.0) as u32` (exact-rational model of the `f64`
product, whose truncation equals `successful * 1000 / total` in `Nat`),
and the PoGQ score. -/
def update_cdn_reputation (rep : CdnNodeReputation) (success : Bool)
    (latency_ms : Nat) : CdnNodeReputation :=
  let rep1 :=
    if success then
      let s := rep.successful_requests + 1
      let total_requests := s + rep.failed_requests
      { rep with
        successful_requests := s
        avg_latency_ms :=
          (rep.avg_latency_ms * (total_requests - 1) + latency_ms) / total_requests }
    else { rep with failed_requests := rep.failed_requests + 1 }
  let total := rep1.successful_requests + rep1.failed_requests
  let uptime := rep1.successful_requests * 1000 / total
  { rep1 with
    uptime_bps := uptime
    pogq_score := pogq_score_of uptime rep1.avg_latency_ms }

/-! ## Trust zome: verification tiers (`recompute_verification`) -/

/-- Embedding of the `VerificationTier` enum
(src/dnas/mycelix-music/zomes/trust/integrity/src/lib.rs, lines 69-80). -/
inductive VerificationTier where
  | Unverified
  | CommunityVerified
  | Trusted
  | PlatformVerified
  | FoundingArtist
  deriving Repr, DecidableEq

/-- Embedding of the `TrustClaim` entry
(src/dnas/mycelix-music/zomes/trust/integrity/src/lib.rs, lines 13-32);
`from`/`to` agent keys are `Nat`, the claim type is collapsed to a tag
`Nat` (it does not influence any computation under verification). -/
structure TrustClaim where
  from_agent : Nat
  to_agent : Nat
  claim_type : Nat
  confidence_bps : Nat
  active : Bool
  deriving Repr, DecidableEq

/-- Result of `recompute_verification` (trust coordinator, lines 116-122),
without the timestamp and the subject key. -/
structure VerificationStatus where
  trust_score : Nat
  tier : VerificationTier
  vouch_count : Nat
  deriving Repr, DecidableEq

/-- Embedding of `get_trust_claims` (trust coordinator, lines 67-92):
of the claims linked under `claims_received/agent`, keep the active ones. -/
def get_trust_claims (linked_claims : List TrustClaim) : List TrustClaim :=
  linked_claims.filter (fun c => c.active)

/-- Embedding of the computation of `recompute_verification`
(src/dnas/mycelix-music/zomes/trust/coordinator/src/lib.rs, lines 95-122):
`vouch_count` and integer-division trust score over the active claims,
then the ordered tier assignment. -/
def recompute_verification (linked_claims : List TrustClaim) : VerificationStatus :=
  let claims := get_trust_claims linked_claims
  let vouch_count := claims.length
  let total_confidence := (claims.map (fun c => c.confidence_bps)).sum
  let trust_score := if vouch_count > 0 then total_confidence / vouch_count else 0
  let tier :=
    if vouch_count ≥ 10 ∧ trust_score ≥ 800 then VerificationTier.Trusted
    else if vouch_count ≥ 3 then VerificationTier.CommunityVerified
    else VerificationTier.Unverified
  { trust_score := trust_score, tier := tier, vouch_count := vouch_count }

/-! ## Trust zome: regional routing (`get_best_nodes_for_region`) -/

/-- Embedding of `get_best_nodes_for_region`
(src/dnas/mycelix-music/zomes/trust/coordinator/src/lib.rs, lines 412-429):
filter the registered nodes by region (or the literal region `"global"`),
stable-sort by descending `pogq_score`, return the first five. -/
def get_best_nodes_for_region (all_nodes : List CdnNodeReputation)
    (region : String) : List CdnNodeReputation :=
  let regional_nodes := all_nodes.filter
    (fun n => decide (n.region = region) || decide (region = "global"))
  let sorted := regional_nodes.mergeSort
    (fun a b => decide (b.pogq_score ≤ a.pogq_score))
  sorted.take 5

/-! ## Plays zome: settlement batches and the Merkle commitment

Action hashes are byte lists; the DHT links from `listener_plays/agent`
are modelled as an explicit association list of `(action hash, entry)`.
Source-chain timestamps (`sys_time`) are irrelevant to the verified
properties and are omitted from the embedded records. -/

/-- Embedding of the `PlayRecord` entry
(src/dnas/mycelix-music/zomes/plays/integrity/src/lib.rs, lines 13-32). -/
structure PlayRecord where
  song_hash : List Nat
  artist : Nat
  played_at : Nat
  duration_listened : Nat
  song_duration : Nat
  strategy_id : String
  amount_owed : Nat
  settled : Bool
  settlement_hash : Option (List Nat)
  deriving Repr, DecidableEq

/-- Embedding of the `SettlementStatus` enum
(src/dnas/mycelix-music/zomes/plays/integrity/src/lib.rs, lines 77-86). -/
inductive SettlementStatus where
  | Pending
  | Submitted
  | Confirmed
  | Failed
  deriving Repr, DecidableEq

/-- Embedding of the `SettlementBatch` entry
(src/dnas/mycelix-music/zomes/plays/integrity/src/lib.rs, lines 55-72). -/
structure SettlementBatch where
  artist : Nat
  play_count : Nat
  total_amount : Nat
  play_hashes : List (List Nat)
  merkle_root : List Nat
  status : SettlementStatus
  tx_hash : Option String
  deriving Repr, DecidableEq

/-- Model of `ActionHash::get_raw_39`: the raw bytes of the hash, which in
this embedding are the hash itself. -/
def get_raw_39 (h : List Nat) : List Nat := h

/-- One level of the hash tree of `compute_merkle_root`
(src/dnas/mycelix-music/zomes/plays/coordinator/src/lib.rs, lines 255-266):
`chunks(2)` combining a full pair, or duplicating a trailing singleton,
through the keccak parameter `K`. -/
def merkle_pair_level (K : List Nat → List Nat) : List (List Nat) → List (List Nat)
  | [] => []
  | [a] => [K (a ++ a)]
  | a :: b :: rest => K (a ++ b) :: merkle_pair_level K rest

/-- The `while current.len() > 1` loop of `compute_merkle_root`
(lines 255-267). -/
def merkle_loop (K : List Nat → List Nat) (l : List (List Nat)) : List (List Nat) :=
  if h : l.length ≤ 1 then l
  else merkle_loop K (merkle_pair_level K l)
termination_by l.length
decreasing_by
  have hlen : ∀ n (m : List (List Nat)), m.length ≤ n →
      (merkle_pair_level K m).length = (m.length + 1) / 2 := by
    intro n
    induction n with
    | zero =>
      intro m hm
      have : m = [] := List.length_eq_zero.mp (Nat.le_zero.mp hm)
      subst this; simp [merkle_pair_level]
    | succ n ih =>
      intro m hm
      cases m with
      | nil => simp [merkle_pair_level]
      | cons a tail =>
        cases tail with
        | nil => simp [merkle_pair_level]
        | cons b rest =>
          have hr : rest.length ≤ n := by
            simp only [List.length_cons] at hm; omega
          simp only [merkle_pair_level, List.length_cons, ih rest hr]
          omega
  have := hlen l.length l le_rfl
  omega

/-- Embedding of `compute_merkle_root`
(src/dnas/mycelix-music/zomes/plays/coordinator/src/lib.rs, lines 243-269):
empty input yields the 32-byte zero sentinel; otherwise the raw hash bytes
are pairwise combined level by level and the single survivor is returned
(`next().unwrap_or` a zero sentinel). -/
def compute_merkle_root (K : List Nat → List Nat) (hashes : List (List Nat)) :
    List Nat :=
  if hashes.isEmpty then List.replicate 32 0
  else
    let current := hashes.map get_raw_39
    ((merkle_loop K current).head?).getD (List.replicate 32 0)

/-- One spec-side tree level, following the spec's words: pairwise-hash the
elements of the level, duplicating the last element when the level has odd
cardinality. Kept separate from the source embedding so the two can be
compared. -/
def merkle_spec_level (K : List Nat → List Nat) : List (List Nat) → List (List Nat)
  | [] => []
  | [a] => [K (a ++ a)]
  | a :: b :: rest => K (a ++ b) :: merkle_spec_level K rest

/-- Spec-side Merkle root, following the spec's words: an empty input hashes
to a fixed all-zero sentinel; otherwise repeat the pairwise level until one
root remains. -/
def merkle_root_spec (K : List Nat → List Nat) : List (List Nat) → List Nat
  | [] => List.replicate 32 0
  | [x] => x
  | a :: b :: rest => merkle_root_spec K (merkle_spec_level K (a :: b :: rest))
termination_by l => l.length
decreasing_by
  have hlen : ∀ n (m : List (List Nat)), m.length ≤ n →
      (merkle_spec_level K m).length = (m.length + 1) / 2 := by
    intro n
    induction n with
    | zero =>
      intro m hm
      have : m = [] := List.length_eq_zero.mp (Nat.le_zero.mp hm)
      subst this; simp [merkle_spec_level]
    | succ n ih =>
      intro m hm
      cases m with
      | nil => simp [merkle_spec_level]
      | cons x tail =>
        cases tail with
        | nil => simp [merkle_spec_level]
        | cons y rest2 =>
          have hr : rest2.length ≤ n := by
            simp only [List.length_cons] at hm; omega
          simp only [merkle_spec_level, List.length_cons, ih rest2 hr]
          omega
  have h1 := hlen (a :: b :: rest).length (a :: b :: rest) le_rfl
  simp only [List.length_cons] at h1 ⊢
  omega

/-- Embedding of `get_my_unsettled_plays`
(src/dnas/mycelix-music/zomes/plays/coordinator/src/lib.rs, lines 99-126):
walk the `listener_plays` links and keep the entries with `settled = false`. -/
def get_my_unsettled_plays (links : List (List Nat × PlayRecord)) : List PlayRecord :=
  links.filterMap (fun e => if e.2.settled then none else some e.2)

/-- Embedding of `create_settlement_batch`
(src/dnas/mycelix-music/zomes/plays/coordinator/src/lib.rs, lines 159-240):
filter the caller's unsettled plays by artist, error on an empty selection,
otherwise build the batch with the exact totals, the re-collected play
hashes, and the Merkle root, in `Pending` status. -/
def create_settlement_batch (K : List Nat → List Nat)
    (links : List (List Nat × PlayRecord)) (artist : Nat) :
    Except String SettlementBatch :=
  let plays := get_my_unsettled_plays links
  let artist_plays := plays.filter (fun p => decide (p.artist = artist))
  if artist_plays.isEmpty then
    Except.error "No unsettled plays for this artist"
  else
    let play_count := artist_plays.length
    let total_amount := (artist_plays.map (fun p => p.amount_owed)).sum
    let play_hashes := links.filterMap
      (fun e => if e.2.settled = false ∧ e.2.artist = artist then some e.1 else none)
    let merkle_root := compute_merkle_root K play_hashes
    Except.ok
      { artist := artist
        play_count := play_count
        total_amount := total_amount
        play_hashes := play_hashes
        merkle_root := merkle_root
        status := SettlementStatus.Pending
        tx_hash := none }

/-- Look up the entry of an action hash among the links (content addressing:
the first entry recorded under that hash). -/
def lookup_play (links : List (List Nat × PlayRecord)) (h : List Nat) :
    Option PlayRecord :=
  (links.find? (fun e => decide (e.1 = h))).map (fun e => e.2)

/-- The obligations a batch references: resolve each of its play hashes. -/
def referenced_plays (links : List (List Nat × PlayRecord))
    (hashes : List (List Nat)) : List PlayRecord :=
  hashes.filterMap (lookup_play links)

/-! ## Event indexer (apps/api-rust/src/services/indexer.rs)

The `payments` table is a list of rows; `ON CONFLICT (tx_hash) DO NOTHING`
becomes an insert guarded by a key scan. The provider's block-timestamp
lookup is a parameter `block_timestamp`. -/

/-- The `PAYMENT_PROCESSED` topic-0 signature
(src/apps/api-rust/src/services/indexer.rs, lines 18-23). -/
def PAYMENT_PROCESSED : List Nat :=
  [0x8a, 0x7b, 0x93, 0x56, 0xaa, 0x45, 0xc7, 0x08,
   0x9a, 0x56, 0x2b, 0x35, 0x1c, 0x88, 0xd9, 0x17,
   0x8a, 0x22, 0x4d, 0x15, 0x5c, 0x21, 0x78, 0x4a,
   0x63, 0x91, 0x12, 0xaa, 0x35, 0x68, 0x7c, 0x88]

/-- An EVM log as the indexer consumes it: 32-byte topics, a data byte
string, and optional block number and transaction hash (the ethers `Log`
fields the code reads; the code never reads `log_index`). -/
structure EthLog where
  topics : List (List Nat)
  data : List Nat
  block_number : Option Nat
  transaction_hash : Option (List Nat)
  deriving Repr, DecidableEq

/-- A row of the `payments` table as inserted by `process_payment_event`
(src/apps/api-rust/src/services/indexer.rs, lines 231-249). -/
structure PaymentRow where
  tx_hash : List Nat
  block_number : Nat
  song_id : List Nat
  listener_address : List Nat
  amount_wei : Nat
  payment_type : Nat
  timestamp : Nat
  deriving Repr, DecidableEq

/-- Big-endian byte decoding of `U256::from_big_endian`. -/
def u256_from_big_endian (bs : List Nat) : Nat :=
  bs.foldl (fun acc b => acc * 256 + b) 0

/-- The transaction-hash key under which `process_payment_event` upserts:
`log.transaction_hash.unwrap_or_default()`. -/
def tx_key (log : EthLog) : List Nat :=
  log.transaction_hash.getD (List.replicate 32 0)

/-- Decoding performed by `process_payment_event`
(src/apps/api-rust/src/services/indexer.rs, lines 198-228): topic 1 is the
song id, topic 2 holds the listener address in its low 20 bytes, the first
32 data bytes are the amount, data byte 63 the payment type; missing
fields default to zero, and the timestamp comes from the provider's block
lookup. -/
def payment_row_of (block_timestamp : Nat → Nat) (log : EthLog) : PaymentRow :=
  let song_id := log.topics.getD 1 (List.replicate 32 0)
  let listener := (log.topics.getD 2 (List.replicate 32 0)).drop 12
  let amount := if 32 ≤ log.data.length
    then u256_from_big_endian (log.data.take 32) else 0
  let payment_type := if 64 ≤ log.data.length then log.data.getD 63 0 else 0
  let block_number := log.block_number.getD 0
  { tx_hash := tx_key log
    block_number := block_number
    song_id := song_id
    listener_address := listener
    amount_wei := amount
    payment_type := payment_type
    timestamp := block_timestamp block_number }

/-- Whether the `payments` table already holds a row for a transaction
hash (the `ON CONFLICT (tx_hash)` uniqueness scan). -/
def has_tx (db : List PaymentRow) (k : List Nat) : Bool :=
  db.any (fun r => decide (r.tx_hash = k))

/-- Embedding of `process_payment_event`
(src/apps/api-rust/src/services/indexer.rs, lines 193-260): decode the log
and insert the row, `ON CONFLICT (tx_hash) DO NOTHING`. -/
def process_payment_event (block_timestamp : Nat → Nat)
    (db : List PaymentRow) (log : EthLog) : List PaymentRow :=
  let row := payment_row_of block_timestamp log
  if has_tx db row.tx_hash then db else db ++ [row]

/-- Embedding of `process_log`
(src/apps/api-rust/src/services/indexer.rs, lines 172-190) restricted to
the `payments` state: a `PaymentProcessed` topic-0 dispatches to
`process_payment_event`; an empty topic list, an unknown signature, or a
`SongRegistered` log (which touches only the `songs` table) leave the
`payments` table unchanged. -/
def process_log (block_timestamp : Nat → Nat)
    (db : List PaymentRow) (log : EthLog) : List PaymentRow :=
  if log.topics.head? = some PAYMENT_PROCESSED then
    process_payment_event block_timestamp db log
  else db

/-- The per-window log loop of `index_new_blocks`
(src/apps/api-rust/src/services/indexer.rs, lines 154-162), acting on the
`payments` table. -/
def process_window (block_timestamp : Nat → Nat)
    (db : List PaymentRow) (logs : List EthLog) : List PaymentRow :=
  logs.foldl (process_log block_timestamp) db

/-- Checkpoint arithmetic of `index_new_blocks`
(src/apps/api-rust/src/services/indexer.rs, lines 133-168): compute the
reorg-safe block (`saturating_sub`), no-op when it does not exceed the
checkpoint, otherwise index the window capped at 1000 blocks and advance
the checkpoint to its end. The number of events a window yields is
abstracted by `event_count`. Returns the new checkpoint and the returned
count. -/
def index_new_blocks (last_indexed_block current_block confirmations : Nat)
    (event_count : Nat → Nat → Nat) : Nat × Nat :=
  let safe_block := current_block - confirmations
  if safe_block ≤ last_indexed_block then (last_indexed_block, 0)
  else
    let from_block := last_indexed_block + 1
    let to_block := min safe_block (from_block + 1000)
    (to_block, event_count from_block to_block)

/-- Checkpoint values along a sequence of indexer cycles, one entry per
observed `(chain height, confirmations)` pair. -/
def checkpoint_trace (event_count : Nat → Nat → Nat) (last : Nat)
    (observations : List (Nat × Nat)) : List Nat :=
  List.scanl (fun l p => (index_new_blocks l p.1 p.2 event_count).1)
    last observations

/-- First concrete payment log of the replay scenario: a `PaymentProcessed`
log of transaction `0x01…01`. -/
def sample_log_a : EthLog :=
  { topics := [PAYMENT_PROCESSED, List.replicate 32 2, List.replicate 32 3]
    data := List.replicate 64 0
    block_number := some 100
    transaction_hash := some (List.replicate 32 1) }

/-- Second concrete payment log: same transaction hash as `sample_log_a`
(one transaction can emit several logs), different payload. -/
def sample_log_b : EthLog :=
  { topics := [PAYMENT_PROCESSED, List.replicate 32 4, List.replicate 32 5]
    data := List.replicate 64 7
    block_number := some 100
    transaction_hash := some (List.replicate 32 1) }

/-- A concrete unsettled play worth 42 wei for artist 7. -/
def sample_play : PlayRecord :=
  { song_hash := [9]
    artist := 7
    played_at := 0
    duration_listened := 60
    song_duration := 60
    strategy_id := "pay_per_stream"
    amount_owed := 42
    settled := false
    settlement_hash := none }

/-- A one-entry listener-plays link list holding `sample_play` under
action hash `[1]`. -/
def sample_links : List (List Nat × PlayRecord) := [([1], sample_play)]

/-- The batch `create_settlement_batch` builds from `sample_links` for
artist 7 under the constant-zero hash. -/
def sample_batch : SettlementBatch :=
  { artist := 7
    play_count := 1
    total_amount := 42
    play_hashes := [[1]]
    merkle_root := [1]
    status := SettlementStatus.Pending
    tx_hash := none }

/-! ## Theorems -/

lemma head_scanl (g : Nat → (Nat × Nat) → Nat) (b : Nat) (l : List (Nat × Nat)) :
    (List.scanl g b l).head? = some b := by
  cases l <;> simp [List.scanl]

lemma chain_scanl (g : Nat → (Nat × Nat) → Nat) (hg : ∀ a p, a ≤ g a p) :
    ∀ (obs : List (Nat × Nat)) (a : Nat),
    List.Chain' (fun x y => x ≤ y) (List.scanl g a obs) := by
  intro obs
  induction obs with
  | nil => intro a; simp [List.scanl]
  | cons p ps ih =>
    intro a
    rw [List.scanl_cons, List.singleton_append, List.chain'_cons']
    refine ⟨?_, ih (g a p)⟩
    intro b hb
    rw [head_scanl] at hb
    cases hb
    exact hg a p

lemma index_new_blocks_fst_ge (last H conf : Nat) (f : Nat → Nat → Nat) :
    last ≤ (index_new_blocks last H conf f).1 := by
  by_cases h : H - conf ≤ last
  · simp [index_new_blocks, h]
  · simp [index_new_blocks, h]
    omega

/-- C2: the checkpoint is non-decreasing along every sequence of indexer
cycles; when a cycle advances it, the new checkpoint does not exceed the
observed chain height minus the confirmation depth; and when the safe
height is at or below the checkpoint, the cycle is a no-op returning 0. -/
theorem index_checkpoint_monotone (last H conf : Nat) (f : Nat → Nat → Nat) :
    last ≤ (index_new_blocks last H conf f).1 ∧
    ((index_new_blocks last H conf f).1 ≠ last →
      (index_new_blocks last H conf f).1 ≤ H - conf) ∧
    (H - conf ≤ last → index_new_blocks last H conf f = (last, 0)) ∧
    ∀ obs : List (Nat × Nat),
      List.Chain' (fun a b => a ≤ b) (checkpoint_trace f last obs) := by
  refine ⟨index_new_blocks_fst_ge last H conf f, ?_, ?_, ?_⟩
  · intro hne
    by_cases h : H - conf ≤ last
    · simp [index_new_blocks, h] at hne
    · simp [index_new_blocks, h]
  · intro hle
    simp [index_new_blocks, hle]
  · intro obs
    exact chain_scanl _ (fun a p => index_new_blocks_fst_ge a p.1 p.2 f) obs last

/-- Witness for C2 at concrete inputs: a no-op cycle at height 10 with
checkpoint 20, and an advancing cycle bounded by the safe height. -/
theorem index_checkpoint_monotone_witness :
    index_new_blocks 20 10 3 (fun _ _ => 0) = (20, 0) ∧
    (index_new_blocks 10 2000 3 (fun _ _ => 0)).1 ≤ 2000 - 3 :=
  ⟨(index_checkpoint_monotone 20 10 3 (fun _ _ => 0)).2.2.1 (by norm_num),
   (index_checkpoint_monotone 10 2000 3 (fun _ _ => 0)).2.1 (by decide)⟩

/-- C4: the pricing function is pure and deterministic: completion is
`min(durationListened/songDuration, 1)` and 0 for a zero-length song; the
amount is 0 whenever under 30 seconds were listened and completion is
under one half, and otherwise the truncation of
`base_rate * completion * multiplier`; 29s of a 60s song prices at zero
while 30s prices at `R * 1/2 * multiplier`. -/
theorem play_pricing (sid : String) (dl sd : Nat) :
    play_completion dl sd = (if 0 < sd then min ((dl : ℚ) / (sd : ℚ)) 1 else 0) ∧
    (sd = 0 → play_completion dl sd = 0) ∧
    (dl < 30 ∧ play_completion dl sd < 1/2 → calculate_play_amount sid dl sd = 0) ∧
    (¬(dl < 30 ∧ play_completion dl sd < 1/2) →
      calculate_play_amount sid dl sd
        = (⌊base_rate * play_completion dl sd * strategy_multiplier sid⌋).toNat) ∧
    calculate_play_amount sid 29 60 = 0 ∧
    calculate_play_amount sid 30 60
      = (⌊base_rate * (1/2 : ℚ) * strategy_multiplier sid⌋).toNat := by
  have h29 : play_completion 29 60 = 29/60 := by
    unfold play_completion
    rw [if_pos (by norm_num)]
    rw [min_eq_left (by norm_num)]
    norm_num
  have h30 : play_completion 30 60 = 1/2 := by
    unfold play_completion
    rw [if_pos (by norm_num)]
    rw [show ((30 : Nat) : ℚ) / ((60 : Nat) : ℚ) = 1/2 by norm_num]
    rw [min_eq_left (by norm_num)]
  refine ⟨rfl, ?_, ?_, ?_, ?_, ?_⟩
  · intro h
    subst h
    simp [play_completion]
  · intro h
    unfold calculate_play_amount
    rw [if_pos h]
  · intro h
    unfold calculate_play_amount
    rw [if_neg h]
  · unfold calculate_play_amount
    rw [if_pos ⟨by norm_num, by rw [h29]; norm_num⟩]
  · unfold calculate_play_amount
    rw [if_neg (by intro hc; exact absurd hc.1 (by norm_num)), h30]

/-- Witness for C4: a 45-of-60-seconds premium play prices at
`⌊4e14 * 3/4 * 2⌋ = 6e14`. -/
theorem play_pricing_witness :
    calculate_play_amount "premium" 45 60 = 600000000000000 := by
  have h := (play_pricing "premium" 45 60).2.2.2.1
    (by intro hc; exact absurd hc.1 (by norm_num))
  rw [h]
  have hc : play_completion 45 60 = 3/4 := by
    unfold play_completion
    rw [if_pos (by norm_num)]
    rw [show ((45 : Nat) : ℚ) / ((60 : Nat) : ℚ) = 3/4 by norm_num]
    rw [min_eq_left (by norm_num)]
  rw [hc]
  rw [show base_rate * (3/4 : ℚ) * strategy_multiplier "premium"
        = 600000000000000 by
      rw [show strategy_multiplier "premium" = 2 from rfl]
      unfold base_rate
      norm_num]
  rw [show ⌊(600000000000000 : ℚ)⌋ = 600000000000000 by
    exact_mod_cast Int.floor_intCast 600000000000000]
  rfl

/-- C5 counterexample: one successful report on a freshly registered node
leaves `uptime_bps = 1000`, not `successful/(successful+failed) * 10000 =
10000` as the claim states. -/
theorem uptime_scale_counterexample :
    ¬ ((update_cdn_reputation (register_cdn_node "0x" "peer" "us-east" 0) true 50).uptime_bps
       = (update_cdn_reputation (register_cdn_node "0x" "peer" "us-east" 0) true 50).successful_requests
           * 10000
         / ((update_cdn_reputation (register_cdn_node "0x" "peer" "us-east" 0) true 50).successful_requests
            + (update_cdn_reputation (register_cdn_node "0x" "peer" "us-east" 0) true 50).failed_requests)) := by
  decide

/-- C5 amended: after every processed quality report,
`uptime_bps = successful * 1000 / (successful + failed)` recomputed from
the post-update counts, and exactly one of the two counters advanced. -/
theorem uptime_recomputed (rep : CdnNodeReputation) (success : Bool)
    (latency_ms : Nat) :
    (update_cdn_reputation rep success latency_ms).uptime_bps
      = (update_cdn_reputation rep success latency_ms).successful_requests * 1000
        / ((update_cdn_reputation rep success latency_ms).successful_requests
           + (update_cdn_reputation rep success latency_ms).failed_requests) ∧
    (update_cdn_reputation rep success latency_ms).successful_requests
      + (update_cdn_reputation rep success latency_ms).failed_requests
      = rep.successful_requests + rep.failed_requests + 1 := by
  cases success <;> simp [update_cdn_reputation] <;> omega

/-- C6: recomputed verification counts the active claims, divides the sum
of their confidence by the count (0 when there are none), and assigns the
tier in order Trusted, CommunityVerified, Unverified; two active
1000-confidence claims give score 1000 at tier Unverified, and adding a
100-confidence claim gives score 700 at tier CommunityVerified. -/
theorem verification_aggregation (cs : List TrustClaim) :
    (recompute_verification cs).vouch_count = (get_trust_claims cs).length ∧
    ((recompute_verification cs).trust_score =
      if 0 < (get_trust_claims cs).length then
        ((get_trust_claims cs).map (fun c => c.confidence_bps)).sum
          / (get_trust_claims cs).length
      else 0) ∧
    ((recompute_verification cs).tier =
      if 10 ≤ (recompute_verification cs).vouch_count
          ∧ 800 ≤ (recompute_verification cs).trust_score
      then VerificationTier.Trusted
      else if 3 ≤ (recompute_verification cs).vouch_count
      then VerificationTier.CommunityVerified
      else VerificationTier.Unverified) ∧
    recompute_verification
        [⟨0, 1, 0, 1000, true⟩, ⟨2, 1, 0, 1000, true⟩]
      = ⟨1000, VerificationTier.Unverified, 2⟩ ∧
    recompute_verification
        [⟨0, 1, 0, 1000, true⟩, ⟨2, 1, 0, 1000, true⟩, ⟨3, 1, 0, 100, true⟩]
      = ⟨700, VerificationTier.CommunityVerified, 3⟩ := by
  refine ⟨rfl, rfl, rfl, by decide, by decide⟩

lemma latency_factor_antitone {l l2 : Nat} (h : l ≤ l2) :
    latency_factor l2 ≤ latency_factor l := by
  unfold latency_factor
  split_ifs <;> first | omega | norm_num

lemma latency_factor_nonneg (l : Nat) : 0 ≤ latency_factor l := by
  unfold latency_factor
  split_ifs <;> norm_num

/-- C9: the composite reputation score is non-increasing in latency for a
fixed uptime, non-decreasing in uptime for a fixed latency, and is exactly
the score `update_cdn_reputation` stores from the updated fields. -/
theorem pogq_monotonicity (u u2 l l2 : Nat) (rep : CdnNodeReputation)
    (success : Bool) (lat : Nat) :
    (l ≤ l2 → pogq_score_of u l2 ≤ pogq_score_of u l) ∧
    (u ≤ u2 → pogq_score_of u l ≤ pogq_score_of u2 l) ∧
    (update_cdn_reputation rep success lat).pogq_score
      = pogq_score_of (update_cdn_reputation rep success lat).uptime_bps
          (update_cdn_reputation rep success lat).avg_latency_ms := by
  refine ⟨?_, ?_, ?_⟩
  · intro h
    unfold pogq_score_of
    exact mul_le_mul_of_nonneg_left (latency_factor_antitone h) (by positivity)
  · intro h
    unfold pogq_score_of
    refine mul_le_mul_of_nonneg_right ?_ (latency_factor_nonneg l)
    have : (u : ℚ) ≤ (u2 : ℚ) := by exact_mod_cast h
    linarith
  · cases success <;> simp [update_cdn_reputation]

/-- Witness for C9: moving latency from 50ms to 600ms does not increase the
score, and raising uptime from 200 to 900 does not decrease it. -/
theorem pogq_monotonicity_witness :
    pogq_score_of 500 600 ≤ pogq_score_of 500 50 ∧
    pogq_score_of 200 50 ≤ pogq_score_of 900 50 :=
  ⟨(pogq_monotonicity 500 500 50 600 (register_cdn_node "" "" "" 0) true 0).1
      (by norm_num),
   (pogq_monotonicity 200 900 50 50 (register_cdn_node "" "" "" 0) true 0).2.1
      (by norm_num)⟩

/-- C10: regional routing returns at most five nodes, each from the
requested region unless the request is the literal region `"global"`, in
non-increasing order of PoGQ score. -/
theorem best_nodes_for_region (nodes : List CdnNodeReputation) (region : String) :
    (get_best_nodes_for_region nodes region).length ≤ 5 ∧
    (∀ n ∈ get_best_nodes_for_region nodes region,
      n.region = region ∨ region = "global") ∧
    List.Pairwise (fun a b => b.pogq_score ≤ a.pogq_score)
      (get_best_nodes_for_region nodes region) := by
  refine ⟨?_, ?_, ?_⟩
  · unfold get_best_nodes_for_region
    exact List.length_take_le 5 _
  · intro n hn
    unfold get_best_nodes_for_region at hn
    have h1 := List.mem_of_mem_take hn
    rw [List.mem_mergeSort] at h1
    have h2 := List.mem_filter.mp h1
    have h3 := h2.2
    simp only [Bool.or_eq_true, decide_eq_true_eq] at h3
    exact h3
  · have hs := @List.sorted_mergeSort CdnNodeReputation
      (fun a b : CdnNodeReputation => decide (b.pogq_score ≤ a.pogq_score))
      (fun a b c hab hbc => by
        simp only [decide_eq_true_eq] at *
        exact le_trans hbc hab)
      (fun a b => by
        simp only [Bool.or_eq_true, decide_eq_true_eq]
        exact le_total b.pogq_score a.pogq_score)
      (nodes.filter
        (fun n => decide (n.region = region) || decide (region = "global")))
    have hp : List.Pairwise (fun a b : CdnNodeReputation => b.pogq_score ≤ a.pogq_score)
        ((nodes.filter
          (fun n => decide (n.region = region) || decide (region = "global"))).mergeSort
          (fun a b => decide (b.pogq_score ≤ a.pogq_score))) :=
      hs.imp (fun h => of_decide_eq_true h)
    exact hp.sublist (List.take_sublist 5 _)

/-- Witness for C10 at a concrete one-node registry: the single `"eu"`
node is returned for the `"eu"` query and satisfies the region clause. -/
theorem best_nodes_for_region_witness :
    (get_best_nodes_for_region [register_cdn_node "a" "b" "eu" 0] "eu").length ≤ 5 ∧
    ((register_cdn_node "a" "b" "eu" 0).region = "eu" ∨ "eu" = "global") := by
  refine ⟨(best_nodes_for_region [register_cdn_node "a" "b" "eu" 0] "eu").1,
    (best_nodes_for_region [register_cdn_node "a" "b" "eu" 0] "eu").2.1
      (register_cdn_node "a" "b" "eu" 0) ?_⟩
  unfold get_best_nodes_for_region
  have hf : ([register_cdn_node "a" "b" "eu" 0].filter
      (fun n => decide (n.region = "eu") || decide ("eu" = "global")))
      = [register_cdn_node "a" "b" "eu" 0] := by
    simp [register_cdn_node]
  rw [hf]
  have hlen : ([register_cdn_node "a" "b" "eu" 0].mergeSort
      (fun a b => decide (b.pogq_score ≤ a.pogq_score))).length = 1 := by
    simpa using (List.mergeSort_perm [register_cdn_node "a" "b" "eu" 0]
      (fun a b => decide (b.pogq_score ≤ a.pogq_score))).length_eq
  rw [List.take_of_length_le (by rw [hlen]; norm_num)]
  rw [List.mem_mergeSort]
  simp

lemma merkle_levels_eq (K : List Nat → List Nat) :
    ∀ l, merkle_spec_level K l = merkle_pair_level K l
  | [] => rfl
  | [a] => rfl
  | a :: b :: rest => by
    simp only [merkle_spec_level, merkle_pair_level]
    rw [merkle_levels_eq K rest]

lemma merkle_pair_level_length (K : List Nat → List Nat) :
    ∀ l, (merkle_pair_level K l).length = (l.length + 1) / 2
  | [] => rfl
  | [a] => by simp [merkle_pair_level]
  | a :: b :: rest => by
    simp only [merkle_pair_level, List.length_cons]
    rw [merkle_pair_level_length K rest]
    omega

lemma merkle_loop_root (K : List Nat → List Nat) :
    ∀ (n : Nat) (l : List (List Nat)), l.length ≤ n → l ≠ [] →
    ((merkle_loop K l).head?).getD (List.replicate 32 0) = merkle_root_spec K l := by
  intro n
  induction n with
  | zero =>
    intro l hlen hne
    cases l with
    | nil => exact absurd rfl hne
    | cons a t => simp at hlen
  | succ n ih =>
    intro l hlen hne
    by_cases h1 : l.length ≤ 1
    · obtain ⟨x, rfl⟩ : ∃ x, l = [x] := by
        cases l with
        | nil => exact absurd rfl hne
        | cons a t =>
          cases t with
          | nil => exact ⟨a, rfl⟩
          | cons b r => simp at h1
      rw [merkle_loop]
      simp [merkle_root_spec]
    · rw [merkle_loop, dif_neg h1]
      have hlevlen := merkle_pair_level_length K l
      have hlev_ne : merkle_pair_level K l ≠ [] := by
        intro hc
        rw [hc] at hlevlen
        simp at hlevlen
        omega
      have hlev_le : (merkle_pair_level K l).length ≤ n := by omega
      rw [ih _ hlev_le hlev_ne]
      obtain ⟨a, b, rest, rfl⟩ : ∃ a b rest, l = a :: b :: rest := by
        cases l with
        | nil => exact absurd rfl hne
        | cons a t =>
          cases t with
          | nil => simp at h1
          | cons b r => exact ⟨a, b, r, rfl⟩
      conv_rhs => rw [merkle_root_spec]
      rw [merkle_levels_eq]

/-- C7: the Merkle root is a deterministic function of the obligation hash
sequence, equal to the spec's binary hash tree (pairwise hashing with the
last element duplicated at odd levels, repeated until one root remains),
and an empty input hashes to the 32-byte zero sentinel. -/
theorem merkle_root_deterministic (K : List Nat → List Nat)
    (hs hs2 : List (List Nat)) :
    compute_merkle_root K hs = merkle_root_spec K hs ∧
    (hs = hs2 → compute_merkle_root K hs = compute_merkle_root K hs2) ∧
    compute_merkle_root K [] = List.replicate 32 0 := by
  refine ⟨?_, fun h => by rw [h], by simp [compute_merkle_root, merkle_root_spec]⟩
  by_cases h : hs = []
  · subst h
    simp [compute_merkle_root, merkle_root_spec]
  · unfold compute_merkle_root
    rw [if_neg (by simpa using h)]
    have hmap : ∀ m : List (List Nat), m.map get_raw_39 = m := by
      intro m
      induction m with
      | nil => rfl
      | cons a t ih => simp [get_raw_39, ih]
    rw [hmap hs]
    exact merkle_loop_root K hs.length hs le_rfl h

/-- Witness for C7: the determinism clause applied to a concrete equal pair
of two-leaf inputs under the constant-zero hash. -/
theorem merkle_root_deterministic_witness :
    compute_merkle_root (fun _ => List.replicate 32 0) [[1], [2]]
      = compute_merkle_root (fun _ => List.replicate 32 0) [[1], [2]] :=
  (merkle_root_deterministic (fun _ => List.replicate 32 0)
    [[1], [2]] [[1], [2]]).2.1 rfl

/-- C8: when the caller has no unsettled play for the artist,
`create_settlement_batch` returns the no-unsettled-plays error and no
batch. -/
theorem no_unsettled_plays_error (K : List Nat → List Nat)
    (links : List (List Nat × PlayRecord)) (artist : Nat)
    (h : ∀ e ∈ links, e.2.settled = false → e.2.artist ≠ artist) :
    create_settlement_batch K links artist
      = Except.error "No unsettled plays for this artist" := by
  have hempty : ((get_my_unsettled_plays links).filter
      (fun p => decide (p.artist = artist))).isEmpty = true := by
    rw [List.isEmpty_iff]
    rw [List.filter_eq_nil]
    intro p hp
    rw [get_my_unsettled_plays, List.mem_filterMap] at hp
    obtain ⟨e, he, hcond⟩ := hp
    by_cases hs : e.2.settled
    · rw [if_pos hs] at hcond
      exact absurd hcond (by simp)
    · rw [if_neg hs] at hcond
      have hp2 : p = e.2 := by
        injection hcond with h2
        exact h2.symm
      subst hp2
      have := h e he (by simpa using hs)
      simp [this]
  simp only [create_settlement_batch]
  rw [hempty]
  rfl

/-- Witness for C8: an empty link list vacuously satisfies the hypothesis
and yields the error. -/
theorem no_unsettled_plays_error_witness :
    create_settlement_batch (fun _ => List.replicate 32 0) [] 0
      = Except.error "No unsettled plays for this artist" :=
  no_unsettled_plays_error (fun _ => List.replicate 32 0) [] 0
    (by intro e he; simp at he)

lemma unsettled_artist_filter (links : List (List Nat × PlayRecord)) (a : Nat) :
    (get_my_unsettled_plays links).filter (fun p => decide (p.artist = a))
      = links.filterMap
          (fun e => if e.2.settled = false ∧ e.2.artist = a then some e.2 else none) := by
  induction links with
  | nil => rfl
  | cons e rest ih =>
    rw [get_my_unsettled_plays, List.filterMap_cons] at *
    by_cases hs : e.2.settled
    · rw [if_pos hs, List.filterMap_cons, if_neg (by simp [hs])]
      exact ih
    · rw [if_neg hs, List.filter_cons, List.filterMap_cons]
      by_cases ha : e.2.artist = a
      · rw [if_pos (by simp [ha]), if_pos ⟨by simpa using hs, ha⟩]
        rw [ih]
      · rw [if_neg (by simp [ha]), if_neg (by rintro ⟨h1, h2⟩; exact ha h2)]
        exact ih

lemma guard_hashes_length (links : List (List Nat × PlayRecord))
    (q : List Nat × PlayRecord → Prop) [DecidablePred q] :
    (links.filterMap (fun e => if q e then some e.1 else none)).length
      = (links.filterMap (fun e => if q e then some e.2 else none)).length := by
  induction links with
  | nil => rfl
  | cons e rest ih =>
    rw [List.filterMap_cons, List.filterMap_cons]
    by_cases hq : q e
    · rw [if_pos hq, if_pos hq, List.length_cons, List.length_cons, ih]
    · rw [if_neg hq, if_neg hq]
      exact ih

lemma mem_guard_hashes (links : List (List Nat × PlayRecord))
    (q : List Nat × PlayRecord → Prop) [DecidablePred q] (x : List Nat) :
    x ∈ links.filterMap (fun e => if q e then some e.1 else none) →
    x ∈ links.map Prod.fst := by
  intro hx
  rw [List.mem_filterMap] at hx
  obtain ⟨e, he, hcond⟩ := hx
  by_cases hq : q e
  · rw [if_pos hq] at hcond
    injection hcond with h1
    subst h1
    exact List.mem_map_of_mem Prod.fst he
  · rw [if_neg hq] at hcond
    exact absurd hcond (by simp)

lemma referenced_guard_hashes (links : List (List Nat × PlayRecord))
    (q : List Nat × PlayRecord → Prop) [DecidablePred q]
    (hnd : (links.map Prod.fst).Nodup) :
    referenced_plays links (links.filterMap (fun e => if q e then some e.1 else none))
      = links.filterMap (fun e => if q e then some e.2 else none) := by
  induction links with
  | nil => rfl
  | cons e rest ih =>
    rw [List.map_cons, List.nodup_cons] at hnd
    have hkey : e.1 ∉ rest.map Prod.fst := hnd.1
    have hnd2 : (rest.map Prod.fst).Nodup := hnd.2
    have hcong : ∀ hashes : List (List Nat),
        (∀ x ∈ hashes, x ∈ rest.map Prod.fst) →
        hashes.filterMap (lookup_play (e :: rest))
          = hashes.filterMap (lookup_play rest) := by
      intro hashes hsub
      refine List.filterMap_congr ?_
      intro x hx
      have hxr : x ∈ rest.map Prod.fst := hsub x hx
      have hne : ¬ (e.1 = x) := by
        intro hc
        exact hkey (hc ▸ hxr)
      rw [lookup_play, lookup_play, List.find?_cons_of_neg _ (by simpa using hne)]
    rw [referenced_plays, List.filterMap_cons, List.filterMap_cons]
    by_cases hq : q e
    · rw [if_pos hq, if_pos hq, List.filterMap_cons]
      have hl : lookup_play (e :: rest) e.1 = some e.2 := by
        rw [lookup_play, List.find?_cons_of_pos _ (by simp)]
        rfl
      rw [hl]
      rw [hcong _ (fun x hx => mem_guard_hashes rest q x hx)]
      rw [← referenced_plays, ih hnd2]
    · rw [if_neg hq, if_neg hq]
      rw [hcong _ (fun x hx => mem_guard_hashes rest q x hx)]
      rw [← referenced_plays, ih hnd2]

/-- C3: a batch built by `create_settlement_batch` totals exactly the
amounts owed of the obligations its play hashes reference, its play count
equals the number of referenced hashes, and it references at least one
obligation. The hypothesis states that DHT action hashes are unique keys. -/
theorem settlement_batch_conservation (K : List Nat → List Nat)
    (links : List (List Nat × PlayRecord)) (artist : Nat) (b : SettlementBatch)
    (hnd : (links.map Prod.fst).Nodup)
    (hok : create_settlement_batch K links artist = Except.ok b) :
    b.total_amount
      = ((referenced_plays links b.play_hashes).map (fun p => p.amount_owed)).sum ∧
    b.play_count = b.play_hashes.length ∧
    1 ≤ b.play_count := by
  simp only [create_settlement_batch] at hok
  by_cases hempty : ((get_my_unsettled_plays links).filter
      (fun p => decide (p.artist = artist))).isEmpty
  · rw [if_pos hempty] at hok
    exact absurd hok (by simp)
  · rw [if_neg hempty] at hok
    rw [Except.ok.injEq] at hok
    subst hok
    have hq := referenced_guard_hashes links
      (fun e => e.2.settled = false ∧ e.2.artist = artist) hnd
    have hfilter := unsettled_artist_filter links artist
    refine ⟨?_, ?_, ?_⟩
    · simp only [hq, hfilter]
    · simp only [hfilter]
      exact (guard_hashes_length links
        (fun e => e.2.settled = false ∧ e.2.artist = artist)).symm
    · simp only [List.isEmpty_iff] at hempty
      have hpos := List.length_pos.mpr hempty
      simpa [hfilter] using hpos

/-- Witness for C3: the one-play sample batch conserves its total and
references one obligation. -/
theorem settlement_batch_conservation_witness :
    sample_batch.total_amount
      = ((referenced_plays sample_links sample_batch.play_hashes).map
          (fun p => p.amount_owed)).sum ∧
    1 ≤ sample_batch.play_count := by
  have h := settlement_batch_conservation (fun _ => [])
    sample_links 7 sample_batch
    (by simp [sample_links])
    (by
      have hmr : compute_merkle_root (fun _ => []) [[1]] = [1] := by
        simp only [compute_merkle_root]
        rw [if_neg (by simp)]
        simp [merkle_loop, get_raw_39]
      simp [create_settlement_batch, get_my_unsettled_plays, sample_links,
        sample_play, sample_batch, hmr])
  exact ⟨h.1, h.2.2⟩

lemma row_tx_hash (bt : Nat → Nat) (log : EthLog) :
    (payment_row_of bt log).tx_hash = tx_key log := rfl

lemma has_tx_process_log_mono (bt : Nat → Nat) (db : List PaymentRow)
    (log : EthLog) (k : List Nat) (h : has_tx db k = true) :
    has_tx (process_log bt db log) k = true := by
  unfold process_log
  split
  · simp only [process_payment_event]
    split
    · exact h
    · simp only [has_tx, List.any_append]
      simp only [has_tx] at h
      simp [h]
  · exact h

lemma process_log_covers (bt : Nat → Nat) (db : List PaymentRow) (log : EthLog)
    (hp : log.topics.head? = some PAYMENT_PROCESSED) :
    has_tx (process_log bt db log) (tx_key log) = true := by
  unfold process_log
  rw [if_pos hp]
  simp only [process_payment_event]
  by_cases h : has_tx db (payment_row_of bt log).tx_hash
  · rw [if_pos h]
    rw [row_tx_hash] at h
    exact h
  · rw [if_neg h]
    simp [has_tx, List.any_append, row_tx_hash]

lemma process_log_replay (bt : Nat → Nat) (db : List PaymentRow) (log : EthLog)
    (h : has_tx db (tx_key log) = true) :
    process_log bt db log = db := by
  unfold process_log
  split
  · simp only [process_payment_event]
    rw [if_pos (by rw [row_tx_hash]; exact h)]
  · rfl

lemma process_window_mono (bt : Nat → Nat) :
    ∀ (logs : List EthLog) (db : List PaymentRow) (k : List Nat),
    has_tx db k = true → has_tx (process_window bt db logs) k = true := by
  intro logs
  induction logs with
  | nil => intro db k h; exact h
  | cons l rest ih =>
    intro db k h
    rw [process_window, List.foldl_cons]
    exact ih _ k (has_tx_process_log_mono bt db l k h)

lemma process_window_covers (bt : Nat → Nat) :
    ∀ (logs : List EthLog) (db : List PaymentRow) (log : EthLog),
    log ∈ logs → log.topics.head? = some PAYMENT_PROCESSED →
    has_tx (process_window bt db logs) (tx_key log) = true := by
  intro logs
  induction logs with
  | nil => intro db log hmem; simp at hmem
  | cons l rest ih =>
    intro db log hmem hp
    rw [process_window, List.foldl_cons]
    rcases List.mem_cons.mp hmem with heq | hmem2
    · subst heq
      exact process_window_mono bt rest _ _ (process_log_covers bt db log hp)
    · exact ih _ log hmem2 hp

lemma process_window_fixed (bt : Nat → Nat) :
    ∀ (logs : List EthLog) (db : List PaymentRow),
    (∀ l ∈ logs, l.topics.head? = some PAYMENT_PROCESSED →
      has_tx db (tx_key l) = true) →
    process_window bt db logs = db := by
  intro logs
  induction logs with
  | nil => intro db hcond; rfl
  | cons l rest ih =>
    intro db hcond
    rw [process_window, List.foldl_cons]
    have hl : process_log bt db l = db := by
      by_cases hp : l.topics.head? = some PAYMENT_PROCESSED
      · exact process_log_replay bt db l (hcond l (List.mem_cons_self l rest) hp)
      · unfold process_log
        rw [if_neg hp]
    rw [hl]
    exact ih db (fun x hx hp => hcond x (List.mem_cons_of_mem l hx) hp)

/-- C1 (amended): replaying a window over the `payments` table is
idempotent, and a replayed log whose transaction hash is already persisted
is a no-op — but the upsert keys on `tx_hash` alone, not on
`(tx_hash, log_index)`. -/
theorem payment_window_idempotent (bt : Nat → Nat) (db : List PaymentRow)
    (logs : List EthLog) (log : EthLog) :
    process_window bt (process_window bt db logs) logs
      = process_window bt db logs ∧
    (has_tx db (tx_key log) = true → process_log bt db log = db) := by
  refine ⟨?_, process_log_replay bt db log⟩
  exact process_window_fixed bt logs _
    (fun l hl hp => process_window_covers bt logs db l hl hp)

/-- Witness for C1 at a concrete one-row table: replaying the already
persisted payment log leaves the table unchanged. -/
theorem payment_window_idempotent_witness :
    process_log (fun _ => 0) [payment_row_of (fun _ => 0) sample_log_a]
        sample_log_a
      = [payment_row_of (fun _ => 0) sample_log_a] :=
  (payment_window_idempotent (fun _ => 0)
    [payment_row_of (fun _ => 0) sample_log_a] [] sample_log_a).2 (by decide)

/-- C1 counterexample: two distinct `PaymentProcessed` logs of the same
transaction are NOT both persisted — the window leaves exactly one row,
because the upsert conflicts on `tx_hash` alone (the code never reads
`log_index` and the table stores none). -/
theorem payment_same_tx_second_log_dropped :
    sample_log_a ≠ sample_log_b ∧
    sample_log_a.transaction_hash = sample_log_b.transaction_hash ∧
    sample_log_a.topics.head? = some PAYMENT_PROCESSED ∧
    sample_log_b.topics.head? = some PAYMENT_PROCESSED ∧
    (process_window (fun _ => 0) [] [sample_log_a, sample_log_b]).length = 1 := by
  decide

end Mycelix
